import Mathlib

/-
Shallow embedding of src/blockchain/Blockchain.js (a single-node blockchain
engine written in JavaScript).  JavaScript values that flow through the
engine's hashing paths are modelled explicitly, because the source relies on
JS coercions: property accesses that miss (`t.hash`, `this.merkelRoot`)
yield `undefined`, `undefined + undefined` is the number `NaN`, string
concatenation coerces its operand via ToPrimitive/ToString, and
`Hmac.update` throws a TypeError on a non-string argument.

The HMAC-SHA256 with the fixed embedded key "secret" (lines 78-80, 147-153)
is abstracted as a parameter `H : String → String`; claims that need to
distinguish digests assume `Function.Injective H` (collision-freeness
idealisation), and concrete witnesses instantiate `H` with an explicit
injective function.
-/

namespace BChainJS

/-- Atomic JavaScript values that can occur as elements of the arrays the
engine ever builds (the literal `[]` at line 119 and the transactions array
at line 122, whose elements are plain objects). -/
inductive JAtom where
  | undefA
  | nanA
  | strA (s : String)
  | objA
deriving DecidableEq

/-- JavaScript values flowing through the engine's hashing code:
`undefined`, the number `NaN`, strings, plain objects (whose default
ToString is "[object Object]") and arrays of atoms. -/
inductive JVal where
  | undef
  | nan
  | str (s : String)
  | obj
  | arr (xs : List JAtom)
deriving DecidableEq

/-- ToString of an atom occurring as an array element: `Array.prototype.join`
renders `undefined` (and `null`) elements as the empty string. -/
def JAtom.elemString : JAtom → String
  | .undefA => ""
  | .nanA => "NaN"
  | .strA s => s
  | .objA => "[object Object]"

/-- ToString(ToPrimitive(v)) for the modelled values: `undefined` prints as
"undefined", `NaN` as "NaN", a plain object as "[object Object]", and an
array joins its elements with ",". -/
def jsSerialize : JVal → String
  | .undef => "undefined"
  | .nan => "NaN"
  | .str s => s
  | .obj => "[object Object]"
  | .arr xs => String.intercalate "," (xs.map JAtom.elemString)

/-- ToPrimitive: arrays and objects convert to their string form; the other
modelled values are already primitive. -/
def toPrim : JVal → JVal
  | .arr xs => .str (jsSerialize (.arr xs))
  | .obj => .str "[object Object]"
  | v => v

/-- JavaScript binary `+` on the modelled values: if either primitive
operand is a string the result is string concatenation of the ToString
forms; otherwise (undefined / NaN operands) ToNumber yields NaN and the
numeric sum is NaN. -/
def jsAdd (a b : JVal) : JVal :=
  match toPrim a, toPrim b with
  | .str s, w => .str (s ++ jsSerialize w)
  | v, .str s => .str (jsSerialize v ++ s)
  | _, _ => .nan

/-- Errors the engine can raise.  `typeError` models `Hmac.update` throwing
on a non-string argument (crypto rejects numbers and `undefined`).
`searchExhausted` is a modelling artifact: the recursive random nonce
search of `proofOfWork` (lines 87-97) is driven by a finite list of
candidate draws, and this error marks the list running out where the
JavaScript code would simply keep recursing. -/
inductive JsErr where
  | typeError
  | searchExhausted
deriving DecidableEq

/-- crypto.createHmac('sha256', "secret").update(v).digest('hex'), with the
keyed hash abstracted as `H`: accepts a string and rejects any other
modelled value with a TypeError, as Node's `Hmac.update` does. -/
def hmacUpdate (H : String → String) : JVal → Except JsErr String
  | .str s => .ok (H s)
  | _ => .error .typeError

/-- Transaction (source lines 29-36): fields `amount`, `sender`,
`recipient`, `tx_id`.  The random `tx_id` (a uuid whose dashes are replaced
via split/join; it never reaches hashing) is modelled as a caller-supplied
argument.  Note the class defines no `hash` property. -/
structure Transaction where
  amount : Int
  sender : String
  recipient : String
  tx_id : String
deriving DecidableEq

/-- Block (source lines 13-23), fields in the constructor's assignment
order; `timestamp` is the construction-time clock reading, threaded in as
an explicit argument `now`. -/
structure Block where
  index : Nat
  timestamp : Nat
  transactions : List Transaction
  prevHash : String
  hash : String
  nonce : String
  merkelRoot : JVal
deriving DecidableEq

/-- Blockchain state (source lines 44-49): the chain, the pending pool and
the difficulty string.  The source assigns `difficulty` only after the
constructor's initial `addBlock`, which never reads it, so the model
carries the final value "000" throughout. -/
structure Blockchain where
  chain : List Block
  pendingTransactions : List Transaction
  difficulty : String
deriving DecidableEq

/-- The transactions array as a JavaScript value: each Transaction is a
plain object, so its default ToString inside an array join is
"[object Object]" regardless of its fields. -/
def txsJVal (txs : List Transaction) : JVal :=
  .arr (txs.map fun _tx => JAtom.objA)

/-- getHash (source lines 76-82): `prevHash + merkelRoot + nonce` followed
by the keyed hash.  Every call site passes strings for `prevHash` and
`nonce`, so the concatenation is a string whose middle contribution is the
ToPrimitive/ToString form of `merkelRoot`, computed by `jsSerialize`. -/
def getHash (H : String → String) (prevHash : String) (merkelRoot : JVal) (nonce : String) : String :=
  H (prevHash ++ jsSerialize merkelRoot ++ nonce)

/-- String.prototype.startsWith, used at line 93: true when the argument's
character sequence is an initial segment of the receiver's.  (The strings
involved here are plain ASCII hex digits, so code points and UTF-16 units
coincide.) -/
def jsStartsWith (s pre : String) : Bool :=
  decide (s.data.take pre.data.length = pre.data)

/-- The ternary `this.chain.length !== 0 ? this.chain[this.chain.length-1].hash : '0'`
shared by `addBlock` (line 63) and `proofOfWork` (line 88). -/
def lastHash (st : Blockchain) : String :=
  match st.chain.getLast? with
  | some b => b.hash
  | none => "0"

/-- One pass of the inner for-loop of `constructMerkleTree` (lines 145-154):
indices step by two; a pair is combined by hashing the `+` of the two
digests, and a final unmatched element (odd level) is hashed alone.  The
`index % 2 == 0` conjunct of line 146 is always true.  Digests are pushed
as strings. -/
def levelStep (H : String → String) : List JVal → Except JsErr (List JVal)
  | [] => .ok []
  | [v] =>
      match hmacUpdate H v with
      | .error e => .error e
      | .ok h => .ok [JVal.str h]
  | v₁ :: v₂ :: rest =>
      match hmacUpdate H (jsAdd v₁ v₂) with
      | .error e => .error e
      | .ok h =>
          match levelStep H rest with
          | .error e => .error e
          | .ok t => .ok (JVal.str h :: t)

theorem levelStep_ok_length (H : String → String) :
    ∀ (l l' : List JVal), levelStep H l = .ok l' → l'.length = (l.length + 1) / 2
  | [], l', h => by
      simp only [levelStep, Except.ok.injEq] at h
      subst h
      rfl
  | [v], l', h => by
      cases hv : hmacUpdate H v with
      | error e => simp [levelStep, hv] at h
      | ok s =>
          simp only [levelStep, hv, Except.ok.injEq] at h
          subst h
          simp
  | v₁ :: v₂ :: rest, l', h => by
      cases hv : hmacUpdate H (jsAdd v₁ v₂) with
      | error e => simp [levelStep, hv] at h
      | ok s =>
          cases ht : levelStep H rest with
          | error e => simp [levelStep, hv, ht] at h
          | ok t =>
              have ih := levelStep_ok_length H rest t ht
              simp only [levelStep, hv, ht, Except.ok.injEq] at h
              subst h
              simp only [List.length_cons, ih]
              omega

/-- The while-loop of `constructMerkleTree` (lines 142-156): keep combining
levels while the current level has more than one node. -/
def merkleLoop (H : String → String) (level : List JVal) : Except JsErr (List JVal) :=
  if h : 1 < level.length then
    match hstep : levelStep H level with
    | .error e => .error e
    | .ok next => merkleLoop H next
  else .ok level
termination_by level.length
decreasing_by
  have := levelStep_ok_length H level next hstep
  omega

/-- constructMerkleTree (source lines 136-159).  The leaf level is
`transactionList.map(t => t.hash)`; `Transaction` defines no `hash`
property (lines 29-36), so every leaf digest is `undefined`.  The original
`transactionList`, unshifted below the leaf level, is never used again.
The returned value `merkelRoot[0][0]` is `undefined` when the top level is
empty (indexing past the end of a JS array yields `undefined`). -/
def constructMerkleTree (H : String → String) (txs : List Transaction) : Except JsErr JVal :=
  match merkleLoop H (txs.map fun _tx => JVal.undef) with
  | .error e => .error e
  | .ok top => .ok (top.headD JVal.undef)

/-- addBlock (source lines 61-71): assemble a block from the pending pool,
append it, and reset the pool.  The pool reset happens after the (possibly
throwing) commitment construction, so a thrown `constructMerkleTree` leaves
the state unchanged. -/
def addBlock (H : String → String) (now : Nat) (nonce : String) (st : Blockchain) :
    Except JsErr Blockchain :=
  (constructMerkleTree H st.pendingTransactions).bind fun merkelRoot =>
    .ok { st with
      chain := st.chain ++ [{
        index := st.chain.length
        timestamp := now
        transactions := st.pendingTransactions
        prevHash := lastHash st
        hash := getHash H (lastHash st) merkelRoot nonce
        nonce := nonce
        merkelRoot := merkelRoot }]
      pendingTransactions := [] }

/-- The state the constructor starts from before its `addBlock('0')` call
(source lines 44-49); see the `Blockchain` doc comment for the difficulty
field. -/
def initState : Blockchain :=
  { chain := [], pendingTransactions := [], difficulty := "000" }

/-- The Blockchain constructor (source lines 44-49): empty chain and pool,
then `addBlock('0')` builds the genesis block. -/
def mkBlockchain (H : String → String) (now : Nat) : Except JsErr Blockchain :=
  addBlock H now "0" initState

/-- The state a freshly constructed Blockchain ends up in:
the constructor's `addBlock('0')` runs with an empty pool, whose
commitment is `undefined`, so the genesis hash seals "0undefined0". -/
def freshChain (H : String → String) (now : Nat) : Blockchain :=
  { chain := [{
      index := 0
      timestamp := now
      transactions := []
      prevHash := "0"
      hash := getHash H "0" JVal.undef "0"
      nonce := "0"
      merkelRoot := JVal.undef }]
    pendingTransactions := []
    difficulty := "000" }

/-- createTransaction (source lines 54-56): push a new Transaction onto the
pending pool. -/
def createTransaction (amount : Int) (sender recipient tx_id : String) (st : Blockchain) :
    Blockchain :=
  { st with pendingTransactions :=
      st.pendingTransactions ++ [{ amount := amount, sender := sender,
                                   recipient := recipient, tx_id := tx_id }] }

/-- proofOfWork (source lines 87-97): repeatedly draw a random 4-hex-char
candidate nonce and accept it when the seal of
`(prevHash, this.merkelRoot, nonce)` starts with the difficulty string;
`this.merkelRoot` is not a property of Blockchain (only Block has
`merkelRoot`), so it reads as `undefined`.  The successive random draws are
modelled by the list `ns`; `none` marks the list running out where the
JavaScript recursion would keep going. -/
def proofOfWork (H : String → String) (st : Blockchain) : List String → Option String
  | [] => none
  | nonce :: rest =>
      if jsStartsWith (getHash H (lastHash st) JVal.undef nonce) st.difficulty then some nonce
      else proofOfWork H st rest

/-- mine (source lines 102-107): find a nonce, then addBlock.  The local
`tx_id_list` built at lines 103-104 is never used. -/
def mine (H : String → String) (now : Nat) (ns : List String) (st : Blockchain) :
    Except JsErr Blockchain :=
  match proofOfWork H st ns with
  | none => .error .searchExhausted
  | some nonce => addBlock H now nonce st

/-- The body of the validation loop of `chainIsValid` for indices i > 0
(source lines 122-127), walking the chain with the predecessor block in
hand: the stored hash is compared against the seal of the predecessor hash,
the transactions array (string-coerced), and the stored nonce; then the
stored prevHash is compared against the predecessor hash.  The local
`tx_id_list` of lines 116-117 is never used. -/
def validFrom (H : String → String) : Block → List Block → Bool
  | _, [] => true
  | prev, b :: rest =>
      if b.hash ≠ getHash H prev.hash (txsJVal b.transactions) b.nonce then false
      else if b.prevHash ≠ prev.hash then false
      else validFrom H b rest

/-- chainIsValid (source lines 114-130): the i = 0 iteration compares the
genesis hash against `getHash('0', [], '0')` (the empty array serializes to
the empty string); later iterations are `validFrom`.  The source returns
false at the first mismatch. -/
def chainIsValid (H : String → String) (st : Blockchain) : Bool :=
  match st.chain with
  | [] => true
  | g :: rest =>
      if g.hash ≠ getHash H "0" (JVal.arr []) "0" then false
      else validFrom H g rest

/-- States reachable through the engine's own operations: construction,
transaction submission, and mining (whether the mine call returns or
throws; a thrown mine leaves the instance unchanged because the pool reset
sits after the throw point).  `chainIsValid` is a pure observer and does
not change state. -/
inductive Reachable (H : String → String) : Blockchain → Prop where
  | init (now : Nat) (st : Blockchain) :
      mkBlockchain H now = .ok st → Reachable H st
  | createTx (st : Blockchain) (amount : Int) (sender recipient tx_id : String) :
      Reachable H st → Reachable H (createTransaction amount sender recipient tx_id st)
  | mineOk (st st' : Blockchain) (now : Nat) (ns : List String) :
      Reachable H st → mine H now ns st = .ok st' → Reachable H st'
  | mineErr (st : Blockchain) (now : Nat) (ns : List String) (e : JsErr) :
      Reachable H st → mine H now ns st = .error e → Reachable H st

/-- The block a successful `addBlock` appends.  Its commitment is
`JVal.undef`, because `constructMerkleTree` returns successfully only on a
pool of at most one transaction, and then returns `undefined` (see
`constructMerkleTree_ok_undef`). -/
def minedBlock (H : String → String) (now : Nat) (nonce : String) (st : Blockchain) : Block :=
  { index := st.chain.length
    timestamp := now
    transactions := st.pendingTransactions
    prevHash := lastHash st
    hash := getHash H (lastHash st) JVal.undef nonce
    nonce := nonce
    merkelRoot := JVal.undef }

/-- The two conditions the validation loop checks for a block at index
i > 0 against its predecessor, as the source computes them (the middle
sealer field is the string-coerced transactions array). -/
def blockPairOk (H : String → String) (prev b : Block) : Prop :=
  b.hash = getHash H prev.hash (txsJVal b.transactions) b.nonce ∧ b.prevHash = prev.hash

/-- Change a transaction's amount, leaving the other fields alone. -/
def mapAmount (f : Int → Int) (t : Transaction) : Transaction :=
  { t with amount := f t.amount }

/-- Change the amounts of every transaction stored in a block, without
resealing: index, timestamp, prevHash, hash, nonce and merkelRoot are kept. -/
def mapBlockAmounts (f : Int → Int) (b : Block) : Block :=
  { b with transactions := b.transactions.map (mapAmount f) }

/-- Pair-and-hash pass over an even-length list of digests: consecutive
pairs, left to right, each hashed as the concatenation of the two digests.
Reference form used to state what `levelStep` computes. -/
def evenPairHashes (H : String → String) : List String → List String
  | a :: b :: rest => H (a ++ b) :: evenPairHashes H rest
  | _ => []

/-- A concrete injective stand-in for the keyed hash, used by witnesses. -/
def idHash : String → String := fun s => s

/-- A concrete injective stand-in for the keyed hash whose outputs all meet
the difficulty target "000", used by mining witnesses. -/
def padHash : String → String := fun s => "000" ++ s

/-- Genesis-shaped block whose hash is exactly what the validator's i = 0
check expects, used to build chains that pass the genesis check in
counterexamples. -/
def cexGenesis : Block :=
  { index := 0, timestamp := 0, transactions := [], prevHash := "0"
    hash := getHash idHash "0" (JVal.arr []) "0", nonce := "0", merkelRoot := JVal.undef }

/-- A follow-up block sealed exactly as claim C3 describes: its stored hash
is the seal of (predecessor hash, stored merkelRoot field, stored nonce). -/
def cexBlockStoredCommit : Block :=
  { index := 1, timestamp := 0, transactions := [], prevHash := cexGenesis.hash
    hash := getHash idHash cexGenesis.hash (JVal.str "X") "7", nonce := "7"
    merkelRoot := JVal.str "X" }

/-- The two-block chain witnessing that the validator does not recompute
from the stored commitment field. -/
def cexChainC3 : Blockchain :=
  { chain := [cexGenesis, cexBlockStoredCommit], pendingTransactions := [], difficulty := "000" }

theorem merkleLoop_of_short (H : String → String) (level : List JVal)
    (h : ¬ 1 < level.length) : merkleLoop H level = .ok level := by
  rw [merkleLoop]
  simp [h]

theorem levelStep_undef_undef (H : String → String) (rest : List JVal) :
    levelStep H (JVal.undef :: JVal.undef :: rest) = .error .typeError := by
  simp [levelStep, jsAdd, toPrim, hmacUpdate]

theorem merkleLoop_undef_undef (H : String → String) (rest : List JVal) :
    merkleLoop H (JVal.undef :: JVal.undef :: rest) = .error .typeError := by
  rw [merkleLoop]
  have h : 1 < (JVal.undef :: JVal.undef :: rest).length := by simp
  rw [dif_pos h]
  split
  · next e heq =>
      rw [levelStep_undef_undef] at heq
      rw [← Except.error.inj heq]
  · next nxt heq =>
      rw [levelStep_undef_undef] at heq
      exact absurd heq (by simp)

theorem constructMerkleTree_nil (H : String → String) :
    constructMerkleTree H [] = .ok JVal.undef := by
  simp [constructMerkleTree, merkleLoop_of_short]

theorem constructMerkleTree_single (H : String → String) (t : Transaction) :
    constructMerkleTree H [t] = .ok JVal.undef := by
  have h : ¬ 1 < ([JVal.undef] : List JVal).length := by simp
  simp [constructMerkleTree, merkleLoop_of_short H _ h]

theorem constructMerkleTree_two_or_more (H : String → String) (t₁ t₂ : Transaction)
    (r : List Transaction) :
    constructMerkleTree H (t₁ :: t₂ :: r) = .error .typeError := by
  simp [constructMerkleTree, merkleLoop_undef_undef]

theorem constructMerkleTree_ok_undef (H : String → String) (txs : List Transaction)
    (v : JVal) (h : constructMerkleTree H txs = .ok v) : v = JVal.undef := by
  match txs with
  | [] => rw [constructMerkleTree_nil] at h; exact (Except.ok.inj h).symm
  | [t] => rw [constructMerkleTree_single] at h; exact (Except.ok.inj h).symm
  | t₁ :: t₂ :: r => rw [constructMerkleTree_two_or_more] at h; exact absurd h (by simp)

theorem addBlock_ok (H : String → String) (now : Nat) (nonce : String)
    (st st' : Blockchain) (h : addBlock H now nonce st = .ok st') :
    st' = { st with
            chain := st.chain ++ [minedBlock H now nonce st]
            pendingTransactions := [] } := by
  unfold addBlock at h
  cases hm : constructMerkleTree H st.pendingTransactions with
  | error e => rw [hm] at h; exact absurd h (by simp [Except.bind])
  | ok mr =>
      have hmr := constructMerkleTree_ok_undef H _ _ hm
      subst hmr
      rw [hm] at h
      simp only [Except.bind, Except.ok.injEq] at h
      exact h.symm.trans (by rfl)

theorem mkBlockchain_eq (H : String → String) (now : Nat) :
    mkBlockchain H now = .ok (freshChain H now) := by
  simp [mkBlockchain, addBlock, initState, constructMerkleTree_nil, Except.bind,
        freshChain, lastHash]

theorem proofOfWork_startsWith (H : String → String) (st : Blockchain) :
    ∀ (ns : List String) (nonce : String), proofOfWork H st ns = some nonce →
      jsStartsWith (getHash H (lastHash st) JVal.undef nonce) st.difficulty = true
  | [], nonce, h => by simp [proofOfWork] at h
  | n :: rest, nonce, h => by
      by_cases hc : jsStartsWith (getHash H (lastHash st) JVal.undef n) st.difficulty
      · simp only [proofOfWork, hc, if_true, Option.some.injEq] at h
        subst h
        exact hc
      · simp only [proofOfWork, hc, if_false] at h
        exact proofOfWork_startsWith H st rest nonce h

theorem mine_ok (H : String → String) (now : Nat) (ns : List String)
    (st st' : Blockchain) (h : mine H now ns st = .ok st') :
    ∃ nonce, proofOfWork H st ns = some nonce ∧
      jsStartsWith (getHash H (lastHash st) JVal.undef nonce) st.difficulty = true ∧
      st' = { st with
              chain := st.chain ++ [minedBlock H now nonce st]
              pendingTransactions := [] } := by
  unfold mine at h
  cases hp : proofOfWork H st ns with
  | none => rw [hp] at h; exact absurd h (by simp)
  | some nonce =>
      rw [hp] at h
      exact ⟨nonce, rfl, proofOfWork_startsWith H st ns nonce hp,
             addBlock_ok H now nonce st st' h⟩

theorem reachable_difficulty (H : String → String) (st : Blockchain)
    (h : Reachable H st) : st.difficulty = "000" := by
  induction h with
  | init now st h =>
      rw [mkBlockchain_eq] at h
      rw [← Except.ok.inj h]
      rfl
  | createTx st amount sender recipient tx_id _ ih =>
      simpa [createTransaction] using ih
  | mineOk st st' now ns _ hm ih =>
      obtain ⟨n, _, _, rfl⟩ := mine_ok H now ns st st' hm
      simpa using ih
  | mineErr st now ns e _ _ ih => exact ih

theorem validFrom_iff (H : String → String) :
    ∀ (rest : List Block) (prev : Block),
      validFrom H prev rest = true ↔ List.Chain' (blockPairOk H) (prev :: rest)
  | [], prev => by simp [validFrom]
  | b :: rest, prev => by
      rw [List.chain'_cons]
      by_cases h1 : b.hash = getHash H prev.hash (txsJVal b.transactions) b.nonce
      · by_cases h2 : b.prevHash = prev.hash
        · simp [validFrom, h1, h2, blockPairOk, validFrom_iff H rest b]
        · simp [validFrom, h1, h2, blockPairOk]
      · simp [validFrom, h1, blockPairOk]

theorem txsJVal_mapAmount (f : Int → Int) (txs : List Transaction) :
    txsJVal (txs.map (mapAmount f)) = txsJVal txs := by
  unfold txsJVal
  rw [List.map_map]
  rfl

theorem validFrom_mapAmounts (H : String → String) (f : Int → Int) :
    ∀ (rest : List Block) (prev : Block),
      validFrom H (mapBlockAmounts f prev) (rest.map (mapBlockAmounts f)) =
        validFrom H prev rest
  | [], prev => rfl
  | b :: rest, prev => by
      simp only [List.map_cons, validFrom, mapBlockAmounts, txsJVal_mapAmount]
      exact if_congr (by rfl) rfl (if_congr (by rfl) rfl
        (validFrom_mapAmounts H f rest b))

theorem chainIsValid_mapAmounts (H : String → String) (f : Int → Int) (s : Blockchain) :
    chainIsValid H { s with chain := s.chain.map (mapBlockAmounts f) } =
      chainIsValid H s := by
  cases hc : s.chain with
  | nil => simp [chainIsValid, hc]
  | cons g rest =>
      simp only [chainIsValid, hc, List.map_cons]
      have hg : (mapBlockAmounts f g).hash = g.hash := rfl
      rw [hg]
      exact if_congr (by rfl) rfl (validFrom_mapAmounts H f rest g)

theorem constructMerkleTree_small (H : String → String) (txs : List Transaction)
    (h : txs.length ≤ 1) : constructMerkleTree H txs = .ok JVal.undef := by
  match txs, h with
  | [], _ => exact constructMerkleTree_nil H
  | [t], _ => exact constructMerkleTree_single H t

theorem addBlock_small_pool (H : String → String) (now : Nat) (nonce : String)
    (st : Blockchain) (h : st.pendingTransactions.length ≤ 1) :
    addBlock H now nonce st = .ok { st with
      chain := st.chain ++ [minedBlock H now nonce st]
      pendingTransactions := [] } := by
  unfold addBlock minedBlock
  rw [constructMerkleTree_small H _ h]
  rfl

theorem mine_eq_addBlock (H : String → String) (now : Nat) (n : String)
    (ns' : List String) (st : Blockchain)
    (hc : jsStartsWith (getHash H (lastHash st) JVal.undef n) st.difficulty = true) :
    mine H now (n :: ns') st = addBlock H now n st := by
  simp only [mine, proofOfWork, hc, if_true]

theorem levelStep_even (H : String → String) :
    ∀ (ss : List String), ss.length % 2 = 0 →
      levelStep H (ss.map JVal.str) = .ok ((evenPairHashes H ss).map JVal.str)
  | [], _ => rfl
  | [a], h => by simp at h
  | a :: b :: rest, h => by
      have ih := levelStep_even H rest (by simp only [List.length_cons] at h; omega)
      simp [levelStep, hmacUpdate, jsAdd, toPrim, jsSerialize, evenPairHashes,
            List.append_eq, ih]

theorem levelStep_odd (H : String → String) :
    ∀ (ss : List String) (x : String), ss.length % 2 = 0 →
      levelStep H ((ss ++ [x]).map JVal.str) =
        .ok ((evenPairHashes H ss ++ [H x]).map JVal.str)
  | [], x, _ => by simp [levelStep, hmacUpdate, evenPairHashes]
  | [a], _, h => by simp at h
  | a :: b :: rest, x, h => by
      have ih := levelStep_odd H rest x (by simp only [List.length_cons] at h; omega)
      simp only [List.map_append, List.map_cons, List.map_nil] at ih
      simp [levelStep, hmacUpdate, jsAdd, toPrim, jsSerialize, evenPairHashes,
            List.append_eq, ih]

/-- Claim C1: a freshly constructed Blockchain validates, i.e. the genesis
block's stored hash equals the validator's i = 0 recomputation
`getHash('0', [], '0')`.  The code does the opposite: the constructor seals
genesis over the empty pool's commitment `undefined` (serialized
"0undefined0"), while the validator recomputes over the empty array
(serialized "00"), so under any collision-free hash the fresh chain is
judged invalid. -/
theorem c1_fresh_chain_invalid (H : String → String) (now : Nat) (st : Blockchain)
    (hinj : Function.Injective H) (h : mkBlockchain H now = .ok st) :
    chainIsValid H st = false ∧
    ∃ g, st.chain = [g] ∧ g.hash ≠ getHash H "0" (JVal.arr []) "0" := by
  rw [mkBlockchain_eq] at h
  rw [← Except.ok.inj h]
  have hne : getHash H "0" JVal.undef "0" ≠ getHash H "0" (JVal.arr []) "0" := by
    intro hEq
    exact absurd (hinj hEq) (by decide)
  constructor
  · simp only [chainIsValid, freshChain]
    rw [if_pos hne]
  · exact ⟨_, rfl, hne⟩

/-- Witness for C1 at the concrete injective hash `idHash` and clock 0. -/
theorem c1_witness :
    chainIsValid idHash (freshChain idHash 0) = false ∧
    ∃ g, (freshChain idHash 0).chain = [g] ∧
      g.hash ≠ getHash idHash "0" (JVal.arr []) "0" :=
  c1_fresh_chain_invalid idHash 0 (freshChain idHash 0)
    (fun _ _ hab => hab) (mkBlockchain_eq idHash 0)

/-- Claim C2: every completed mine() appends a block whose stored hash is
the seal of its own stored fields and meets the difficulty target; the
commitment value used by the nonce search equals the one stored in the
block (both are `undefined`: the search reads the absent `this.merkelRoot`
of the Blockchain, and `addBlock` succeeds only when the pool commitment is
`undefined`). -/
theorem c2_pow_seal_consistent (H : String → String) (now : Nat) (ns : List String)
    (st st' : Blockchain) (h : mine H now ns st = .ok st') :
    ∃ b : Block, st'.chain = st.chain ++ [b] ∧ b.merkelRoot = JVal.undef ∧
      b.hash = getHash H b.prevHash b.merkelRoot b.nonce ∧
      jsStartsWith b.hash st.difficulty = true := by
  obtain ⟨n, _, hsw, rfl⟩ := mine_ok H now ns st st' h
  exact ⟨minedBlock H now n st, rfl, rfl, rfl, hsw⟩

/-- Witness for C2: a concrete mine() whose seals all meet "000". -/
theorem c2_witness :
    ∃ b : Block,
      ({ initState with
         chain := initState.chain ++ [minedBlock padHash 5 "ab" initState]
         pendingTransactions := [] } : Blockchain).chain = initState.chain ++ [b] ∧
      b.merkelRoot = JVal.undef ∧
      b.hash = getHash padHash b.prevHash b.merkelRoot b.nonce ∧
      jsStartsWith b.hash initState.difficulty = true :=
  c2_pow_seal_consistent padHash 5 ["ab"] initState _
    ((mine_eq_addBlock padHash 5 "ab" [] initState (by decide)).trans
      (addBlock_small_pool padHash 5 "ab" initState (by decide)))

/-- Claim C3 counterexample: a chain whose genesis passes the validator's
i = 0 check and whose block 1 satisfies exactly the claim's conditions —
its stored hash is the seal of (predecessor hash, stored merkelRoot field,
stored nonce) and its prevHash matches — yet chainIsValid returns false,
because the code recomputes the seal from the string-coerced transactions
array, not from the stored commitment field. -/
theorem c3_counterexample :
    cexBlockStoredCommit.hash =
      getHash idHash cexGenesis.hash cexBlockStoredCommit.merkelRoot
        cexBlockStoredCommit.nonce ∧
    cexBlockStoredCommit.prevHash = cexGenesis.hash ∧
    cexGenesis.hash = getHash idHash "0" (JVal.arr []) "0" ∧
    chainIsValid idHash cexChainC3 = false := by
  refine ⟨rfl, rfl, rfl, ?_⟩
  decide

/-- Claim C3 amended: for i > 0 the validator accepts a block iff its
stored hash equals the seal of (predecessor hash, the transactions array
coerced to a string — "[object Object]" per transaction, comma-joined —
stored nonce) and its prevHash equals the predecessor hash; the stored
commitment field plays no role. -/
theorem c3_validator_uses_transaction_list (H : String → String) (st : Blockchain) :
    chainIsValid H st = true ↔
      ((∀ g ∈ st.chain.head?, g.hash = getHash H "0" (JVal.arr []) "0") ∧
        List.Chain' (blockPairOk H) st.chain) := by
  cases hc : st.chain with
  | nil => simp [chainIsValid, hc]
  | cons g rest =>
      simp only [chainIsValid, hc]
      by_cases h1 : g.hash = getHash H "0" (JVal.arr []) "0"
      · simp [h1, validFrom_iff H rest g]
      · simp [h1]

/-- Claim C4: mutating any field of an appended block must flip
chainIsValid() to false.  The code fails this: overwriting the freshly
constructed genesis block's hash with the validator's own expected value
makes chainIsValid() return true, and rewriting every stored transaction
amount never changes the validator's verdict at all (the validator only
sees "[object Object]" per transaction). -/
theorem c4_tampering_not_detected (H : String → String) (now : Nat) (st : Blockchain)
    (h : mkBlockchain H now = .ok st) :
    chainIsValid H { st with chain := (st.chain.map
        (fun b => { b with hash := getHash H "0" (JVal.arr []) "0" })) } = true ∧
    ∀ (s : Blockchain) (f : Int → Int),
      chainIsValid H { s with chain := s.chain.map (mapBlockAmounts f) } =
        chainIsValid H s := by
  constructor
  · rw [mkBlockchain_eq] at h
    rw [← Except.ok.inj h]
    simp [chainIsValid, freshChain, validFrom]
  · exact fun s f => chainIsValid_mapAmounts H f s

/-- Witness for C4: the mutated fresh chain at the concrete hash `idHash`. -/
theorem c4_witness :
    chainIsValid idHash { (freshChain idHash 0) with
      chain := ((freshChain idHash 0).chain.map
        (fun b => { b with hash := getHash idHash "0" (JVal.arr []) "0" })) } = true :=
  (c4_tampering_not_detected idHash 0 (freshChain idHash 0) (mkBlockchain_eq idHash 0)).1

/-- Claim C5 counterexample: the empty-pool commitment marker does not
contribute the empty string to the sealed concatenation.  At the identity
stand-in hash the sealed value is the concatenation itself:
"0" + undefined + "0" gives "0undefined0", not "00". -/
theorem c5_counterexample :
    constructMerkleTree idHash [] = .ok JVal.undef ∧
    getHash idHash "0" JVal.undef "0" ≠ "0" ++ "" ++ "0" :=
  ⟨constructMerkleTree_nil idHash, by decide⟩

/-- Claim C5 amended: the empty-pool commitment is the distinguished value
`undefined` (not a digest of zero inputs); as a sealer field it contributes
the 9-character string "undefined" — the same contribution the
constructor's genesis sealing uses, but not the empty string that the
validator's genesis check uses (that check passes the empty array, which
serializes to ""). -/
theorem c5_empty_commitment_serialization (H : String → String) (p n : String) :
    constructMerkleTree H [] = .ok JVal.undef ∧
    getHash H p JVal.undef n = H (p ++ "undefined" ++ n) ∧
    getHash H "0" (JVal.arr []) "0" = H ("0" ++ "" ++ "0") :=
  ⟨constructMerkleTree_nil H, rfl, rfl⟩

/-- Claim C6: on every state reachable through the engine's own operations
(construction, createTransaction, mine — returning or throwing), each
non-genesis block's prevHash equals its predecessor's hash. -/
theorem c6_chain_linkage (H : String → String) (st : Blockchain)
    (h : Reachable H st) :
    List.Chain' (fun a b => b.prevHash = a.hash) st.chain := by
  induction h with
  | init now st h =>
      rw [mkBlockchain_eq] at h
      rw [← Except.ok.inj h]
      simp [freshChain]
  | createTx st amount sender recipient tx_id _ ih =>
      simpa [createTransaction] using ih
  | mineOk st st' now ns _ hm ih =>
      obtain ⟨n, _, _, rfl⟩ := mine_ok H now ns st st' hm
      show List.Chain' _ (st.chain ++ [minedBlock H now n st])
      rw [List.chain'_append]
      refine ⟨ih, by simp, ?_⟩
      intro x hx y hy
      simp only [List.head?_cons, Option.mem_def, Option.some.injEq] at hy
      subst hy
      show lastHash st = x.hash
      rw [Option.mem_def] at hx
      unfold lastHash
      rw [hx]
  | mineErr st now ns e _ _ ih => exact ih

/-- Witness for C6 at the freshly constructed chain. -/
theorem c6_witness :
    List.Chain' (fun a b => b.prevHash = a.hash) (freshChain idHash 0).chain :=
  c6_chain_linkage idHash (freshChain idHash 0)
    (Reachable.init 0 (freshChain idHash 0) (mkBlockchain_eq idHash 0))

/-- Claim C7: one combining pass of the merkle construction hashes
consecutive pairs left-to-right as the concatenation of the two digests,
and on an odd-length level it hashes the final unmatched digest alone (it
is not paired with a duplicate of itself). -/
theorem c7_odd_level_hashed_alone (H : String → String) (ss : List String) (x : String)
    (h : ss.length % 2 = 0) :
    levelStep H (ss.map JVal.str) = .ok ((evenPairHashes H ss).map JVal.str) ∧
    levelStep H ((ss ++ [x]).map JVal.str) =
      .ok ((evenPairHashes H ss ++ [H x]).map JVal.str) :=
  ⟨levelStep_even H ss h, levelStep_odd H ss x h⟩

/-- Witness for C7 on the three-digest level ["a", "b", "c"]. -/
theorem c7_witness :
    (["a", "b"] : List String).length % 2 = 0 ∧
    (levelStep idHash (["a", "b"].map JVal.str) =
        .ok ((evenPairHashes idHash ["a", "b"]).map JVal.str) ∧
      levelStep idHash ((["a", "b"] ++ ["c"]).map JVal.str) =
        .ok ((evenPairHashes idHash ["a", "b"] ++ [idHash "c"]).map JVal.str)) :=
  ⟨by decide, c7_odd_level_hashed_alone idHash ["a", "b"] "c" (by decide)⟩

/-- Claim C8: every completed mine() empties the pending pool, moves the
pool into the appended block, and a subsequent mine() can only append a
block with an empty transaction list — transactions submitted before the
first mine() never reappear in a later block. -/
theorem c8_pool_cleared (H : String → String) (now : Nat) (ns : List String)
    (st st' : Blockchain) (h : mine H now ns st = .ok st') :
    st'.pendingTransactions = [] ∧
    (∃ b, st'.chain = st.chain ++ [b] ∧ b.transactions = st.pendingTransactions) ∧
    ∀ (now₂ : Nat) (ns₂ : List String) (st'' : Blockchain),
      mine H now₂ ns₂ st' = .ok st'' →
        ∃ b₂, st''.chain = st'.chain ++ [b₂] ∧ b₂.transactions = [] := by
  obtain ⟨n, _, _, rfl⟩ := mine_ok H now ns st st' h
  refine ⟨rfl, ⟨minedBlock H now n st, rfl, rfl⟩, ?_⟩
  intro now₂ ns₂ st'' h₂
  obtain ⟨n₂, _, _, rfl⟩ := mine_ok H now₂ ns₂ _ st'' h₂
  exact ⟨minedBlock H now₂ n₂ _, rfl, rfl⟩

/-- Witness for C8: mine a chain holding one submitted transaction. -/
theorem c8_witness :
    ({ (createTransaction 10 "A" "B" "t1" initState) with
       chain := (createTransaction 10 "A" "B" "t1" initState).chain ++
         [minedBlock padHash 7 "cd" (createTransaction 10 "A" "B" "t1" initState)]
       pendingTransactions := [] } : Blockchain).pendingTransactions = [] ∧
    (∃ b, ({ (createTransaction 10 "A" "B" "t1" initState) with
       chain := (createTransaction 10 "A" "B" "t1" initState).chain ++
         [minedBlock padHash 7 "cd" (createTransaction 10 "A" "B" "t1" initState)]
       pendingTransactions := [] } : Blockchain).chain =
        (createTransaction 10 "A" "B" "t1" initState).chain ++ [b] ∧
      b.transactions = (createTransaction 10 "A" "B" "t1" initState).pendingTransactions) ∧
    ∀ (now₂ : Nat) (ns₂ : List String) (st'' : Blockchain),
      mine padHash now₂ ns₂ ({ (createTransaction 10 "A" "B" "t1" initState) with
        chain := (createTransaction 10 "A" "B" "t1" initState).chain ++
          [minedBlock padHash 7 "cd" (createTransaction 10 "A" "B" "t1" initState)]
        pendingTransactions := [] } : Blockchain) = .ok st'' →
        ∃ b₂, st''.chain = ({ (createTransaction 10 "A" "B" "t1" initState) with
          chain := (createTransaction 10 "A" "B" "t1" initState).chain ++
            [minedBlock padHash 7 "cd" (createTransaction 10 "A" "B" "t1" initState)]
          pendingTransactions := [] } : Blockchain).chain ++ [b₂] ∧
          b₂.transactions = [] :=
  c8_pool_cleared padHash 7 ["cd"] (createTransaction 10 "A" "B" "t1" initState) _
    ((mine_eq_addBlock padHash 7 "cd" []
        (createTransaction 10 "A" "B" "t1" initState) (by decide)).trans
      (addBlock_small_pool padHash 7 "cd"
        (createTransaction 10 "A" "B" "t1" initState) (by decide)))

/-- Claim C9: construction yields a one-block chain (genesis at index 0)
and an empty pool, with the difficulty fixed at "000" on every state the
engine's operations can reach. -/
theorem c9_construction (H : String → String) (now : Nat) (st : Blockchain)
    (h : mkBlockchain H now = .ok st) :
    st.chain.length = 1 ∧ (∃ g, st.chain = [g] ∧ g.index = 0) ∧
    st.pendingTransactions = [] ∧ st.difficulty = "000" ∧
    ∀ s, Reachable H s → s.difficulty = "000" := by
  rw [mkBlockchain_eq] at h
  rw [← Except.ok.inj h]
  exact ⟨rfl, ⟨_, rfl, rfl⟩, rfl, rfl, fun s hs => reachable_difficulty H s hs⟩

/-- Witness for C9 at the concrete hash `idHash` and clock 0. -/
theorem c9_witness : (freshChain idHash 0).chain.length = 1 :=
  (c9_construction idHash 0 (freshChain idHash 0) (mkBlockchain_eq idHash 0)).1

/-- Claim C10: the merkle commitment depends only on the number of
transactions — the leaf digests come from the absent `hash` property, so
any two pools of equal length produce identical results (same commitment,
or the same TypeError for two or more transactions), regardless of
amounts, senders, recipients or ids. -/
theorem c10_commitment_ignores_content (H : String → String)
    (l₁ l₂ : List Transaction) (h : l₁.length = l₂.length) :
    constructMerkleTree H l₁ = constructMerkleTree H l₂ := by
  unfold constructMerkleTree
  have hm : l₁.map (fun _tx => JVal.undef) = l₂.map (fun _tx => JVal.undef) := by
    rw [List.map_const', List.map_const', h]
  rw [hm]

/-- Witness for C10 on two different single-transaction pools. -/
theorem c10_witness :
    ([⟨1, "a", "b", "x"⟩] : List Transaction).length =
      ([⟨2, "c", "d", "y"⟩] : List Transaction).length ∧
    constructMerkleTree idHash [⟨1, "a", "b", "x"⟩] =
      constructMerkleTree idHash [⟨2, "c", "d", "y"⟩] :=
  ⟨rfl, c10_commitment_ignores_content idHash _ _ rfl⟩

end BChainJS
